import Mathlib

/-!
Shallow embedding of the cpp-unit-test-gen pipeline
(`src/llm_client.py`, `src/build_utils.py`, `src/main.py`).

Paths are modelled as lists of components (`List String`); Python's
`os.path.join(root, x)` becomes `root ++ [x]`, and the string that Python
manipulates is recovered by joining components with `"/"` (`joinPath`).
Python's substring test `needle in hay` is modelled by `strHasSub`, and
`str.endswith` by `strEndsWith`, both executable over `String.data`.
External effects (HTTP requests, subprocesses) are modelled by oracles:
a function from attempt index to request outcome for the LLM client, and
`ProcResult` records for each subprocess invocation.
-/

/-- Boolean test that `pre` is a prefix of `l`, on lists of characters. -/
def startsWithL : List Char → List Char → Bool
  | [], _ => true
  | _ :: _, [] => false
  | a :: as, b :: bs => a == b && startsWithL as bs

/-- Boolean substring test on lists of characters: `needle` occurs
contiguously inside `hay`. -/
def hasSubL (needle : List Char) : List Char → Bool
  | [] => needle.isEmpty
  | c :: rest => startsWithL needle (c :: rest) || hasSubL needle rest

/-- Python's `needle in hay` on strings (contiguous substring test). -/
def strHasSub (needle hay : String) : Bool :=
  hasSubL needle.data hay.data

/-- Python's `s.endswith(suffix)`. -/
def strEndsWith (s suffix : String) : Bool :=
  startsWithL suffix.data.reverse s.data.reverse

/-- Join path components with `"/"`, mirroring how `os.walk` and
`os.path.join` build the root strings the source code inspects. -/
def joinPath : List String → String
  | [] => ""
  | [c] => c
  | c :: rest => c ++ "/" ++ joinPath rest

theorem startsWithL_append (l t : List Char) : startsWithL l (l ++ t) = true := by
  induction l with
  | nil => rfl
  | cons a as ih => simp [startsWithL, ih]

theorem startsWithL_self (l : List Char) : startsWithL l l = true := by
  have h := startsWithL_append l []
  simpa using h

theorem startsWithL_extend {n h : List Char} (hn : startsWithL n h = true) (t : List Char) :
    startsWithL n (h ++ t) = true := by
  induction n generalizing h with
  | nil => rfl
  | cons a as ih =>
    cases h with
    | nil => simp [startsWithL] at hn
    | cons b bs =>
      simp [startsWithL] at hn
      simp [startsWithL, hn.1, ih hn.2]

theorem hasSubL_nil_right (n : List Char) (hn : hasSubL n [] = true) : n = [] := by
  simpa [hasSubL, List.isEmpty_iff] using hn

theorem hasSubL_nil_left (h : List Char) : hasSubL [] h = true := by
  cases h with
  | nil => rfl
  | cons c rest => simp [hasSubL, startsWithL]

theorem hasSubL_of_startsWithL {n h : List Char} (hs : startsWithL n h = true) :
    hasSubL n h = true := by
  cases h with
  | nil =>
    cases n with
    | nil => rfl
    | cons a as => simp [startsWithL] at hs
  | cons c rest => simp [hasSubL, hs]

theorem hasSubL_prepend {n h : List Char} (hn : hasSubL n h = true) (pre : List Char) :
    hasSubL n (pre ++ h) = true := by
  induction pre with
  | nil => simpa using hn
  | cons c cs ih => simp [hasSubL, ih]

theorem hasSubL_extend {n h : List Char} (hn : hasSubL n h = true) (t : List Char) :
    hasSubL n (h ++ t) = true := by
  induction h with
  | nil =>
    have := hasSubL_nil_right n hn
    subst this
    exact hasSubL_nil_left t
  | cons c rest ih =>
    simp [hasSubL] at hn
    rcases hn with hn | hn
    · have := startsWithL_extend hn t
      simpa [hasSubL] using Or.inl this
    · have := ih hn
      simp [hasSubL, this]

theorem hasSubL_self (n : List Char) : hasSubL n n = true := by
  cases n with
  | nil => rfl
  | cons c rest => simp [hasSubL, startsWithL_self]

theorem strHasSub_append_right (s t : String) : strHasSub s (t ++ s) = true := by
  unfold strHasSub
  rw [String.data_append]
  exact hasSubL_prepend (hasSubL_self s.data) t.data

/-! ## Model Client (`src/llm_client.py`, `call_llm`)

The HTTP layer is abstracted by an oracle mapping the 0-based attempt
index to the outcome of that `requests.post` (success with the decoded
`"response"` field, `requests.exceptions.ConnectionError`,
`requests.exceptions.Timeout`, or any other exception, which includes the
`HTTPError` produced by `raise_for_status` on a non-2xx reply). -/

/-- Outcome of one `requests.post` attempt, as seen by `call_llm`. -/
inductive ReqOutcome where
  | success (text : String)
  | connectionError
  | timeoutError
  | otherError (msg : String)

/-- What `call_llm` does in the end: return the completion, fall off the
loop returning Python `None`, or raise an exception with a message. -/
inductive LlmOutcome where
  | ok (text : String)
  | none
  | error (msg : String)
deriving DecidableEq

/-- Observable trace of one `call_llm` invocation: final outcome, number
of `requests.post` attempts performed, and the argument of each
`time.sleep` in order. -/
structure LlmTrace where
  result : LlmOutcome
  attempts : Nat
  delays : List Nat
deriving DecidableEq

/-- Message raised when every retry for a connection failure is spent. -/
def connectErrMsg : String :=
  "Failed to connect to Ollama. Make sure Ollama is running on localhost:11434"

/-- Message raised when every retry for a timeout is spent. -/
def timeoutErrMsg : String := "LLM request timed out"

/-- Body of `call_llm`'s `for attempt in range(max_retries)` loop.
`fuel` is the number of remaining iterations and `attempt` the current
0-based index, so the top-level call uses `fuel = max_retries.toNat`,
`attempt = 0`. -/
def call_llm_loop (oracle : Nat → ReqOutcome) (max_retries : Int) :
    Nat → Nat → LlmTrace
  | 0, _ => ⟨LlmOutcome.none, 0, []⟩
  | fuel + 1, attempt =>
    match oracle attempt with
    | ReqOutcome.success t => ⟨LlmOutcome.ok t, 1, []⟩
    | ReqOutcome.connectionError =>
      if (attempt : Int) < max_retries - 1 then
        let r := call_llm_loop oracle max_retries fuel (attempt + 1)
        ⟨r.result, r.attempts + 1, 2 :: r.delays⟩
      else ⟨LlmOutcome.error connectErrMsg, 1, []⟩
    | ReqOutcome.timeoutError =>
      if (attempt : Int) < max_retries - 1 then
        let r := call_llm_loop oracle max_retries fuel (attempt + 1)
        ⟨r.result, r.attempts + 1, 1 :: r.delays⟩
      else ⟨LlmOutcome.error timeoutErrMsg, 1, []⟩
    | ReqOutcome.otherError m => ⟨LlmOutcome.error ("LLM API error: " ++ m), 1, []⟩

/-- The `call_llm(prompt, model, max_retries)` function of
`src/llm_client.py`.  `prompt` and `model` only feed the request payload,
whose network behaviour the oracle abstracts; `range(max_retries)` is
empty when `max_retries ≤ 0`, hence the `Int.toNat` fuel. -/
def call_llm (_prompt _model : String) (oracle : Nat → ReqOutcome)
    (max_retries : Int) : LlmTrace :=
  call_llm_loop oracle max_retries max_retries.toNat 0

theorem call_llm_loop_step_conn (oracle : Nat → ReqOutcome) (mr : Int)
    (fuel a : Nat) (h1 : oracle a = ReqOutcome.connectionError)
    (h2 : (a : Int) < mr - 1) :
    call_llm_loop oracle mr (fuel + 1) a =
      ⟨(call_llm_loop oracle mr fuel (a + 1)).result,
       (call_llm_loop oracle mr fuel (a + 1)).attempts + 1,
       2 :: (call_llm_loop oracle mr fuel (a + 1)).delays⟩ := by
  simp [call_llm_loop, h1, h2]

theorem call_llm_loop_step_conn_last (oracle : Nat → ReqOutcome) (mr : Int)
    (fuel a : Nat) (h1 : oracle a = ReqOutcome.connectionError)
    (h2 : ¬ ((a : Int) < mr - 1)) :
    call_llm_loop oracle mr (fuel + 1) a =
      ⟨LlmOutcome.error connectErrMsg, 1, []⟩ := by
  simp [call_llm_loop, h1, h2]

theorem call_llm_loop_step_timeout (oracle : Nat → ReqOutcome) (mr : Int)
    (fuel a : Nat) (h1 : oracle a = ReqOutcome.timeoutError)
    (h2 : (a : Int) < mr - 1) :
    call_llm_loop oracle mr (fuel + 1) a =
      ⟨(call_llm_loop oracle mr fuel (a + 1)).result,
       (call_llm_loop oracle mr fuel (a + 1)).attempts + 1,
       1 :: (call_llm_loop oracle mr fuel (a + 1)).delays⟩ := by
  simp [call_llm_loop, h1, h2]

theorem call_llm_loop_step_other (oracle : Nat → ReqOutcome) (mr : Int)
    (fuel a : Nat) (msg : String) (h1 : oracle a = ReqOutcome.otherError msg) :
    call_llm_loop oracle mr (fuel + 1) a =
      ⟨LlmOutcome.error ("LLM API error: " ++ msg), 1, []⟩ := by
  simp [call_llm_loop, h1]

theorem call_llm_loop_conn (oracle : Nat → ReqOutcome) (max_retries : Int)
    (hall : ∀ i, oracle i = ReqOutcome.connectionError) :
    ∀ (n a : Nat), 1 ≤ n → (a : Int) + n = max_retries →
      call_llm_loop oracle max_retries n a =
        ⟨LlmOutcome.error connectErrMsg, n, List.replicate (n - 1) 2⟩ := by
  intro n
  induction n with
  | zero => intro a h; omega
  | succ m ih =>
    intro a _ hsum
    cases m with
    | zero =>
      have hcond : ¬ ((a : Int) < max_retries - 1) := by omega
      simp [call_llm_loop_step_conn_last oracle max_retries 0 a (hall a) hcond]
    | succ k =>
      have hcond : (a : Int) < max_retries - 1 := by push_cast at hsum ⊢; omega
      have hrec := ih (a + 1) (by omega) (by push_cast at hsum ⊢; omega)
      rw [call_llm_loop_step_conn oracle max_retries (k + 1) a (hall a) hcond, hrec]
      simp [List.replicate_succ]

/-- Claim C1: if every request attempt raises a connection-refused error
and at least one attempt is allowed, `call_llm` performs exactly
`max_retries` request attempts and then fails with the
"Failed to connect to Ollama. Make sure Ollama is running on
localhost:11434" error. -/
theorem call_llm_conn_refused_retry_bound (prompt model : String)
    (oracle : Nat → ReqOutcome) (max_retries : Int)
    (hall : ∀ i, oracle i = ReqOutcome.connectionError)
    (hpos : 1 ≤ max_retries) :
    ((call_llm prompt model oracle max_retries).attempts : Int) = max_retries ∧
    (call_llm prompt model oracle max_retries).result =
      LlmOutcome.error connectErrMsg := by
  have h := call_llm_loop_conn oracle max_retries hall max_retries.toNat 0
    (by omega) (by omega)
  unfold call_llm
  rw [h]
  constructor
  · simp; omega
  · rfl

/-- Witness for C1: with `max_retries = 3` and an always-refusing
connection, exactly 3 attempts happen and the unreachable error results. -/
theorem call_llm_conn_refused_retry_bound_witness :
    (((call_llm "p" "m" (fun _ => ReqOutcome.connectionError) 3).attempts : Int) = 3 ∧
     (call_llm "p" "m" (fun _ => ReqOutcome.connectionError) 3).result =
       LlmOutcome.error connectErrMsg) :=
  call_llm_conn_refused_retry_bound "p" "m" (fun _ => ReqOutcome.connectionError) 3
    (fun _ => rfl) (by decide)

theorem call_llm_loop_other (oracle : Nat → ReqOutcome) (max_retries : Int)
    (msg : String) :
    ∀ (k n a : Nat), k < n → ((a + k : Nat) : Int) < max_retries →
      (∀ i, i < k → oracle (a + i) = ReqOutcome.connectionError ∨
         oracle (a + i) = ReqOutcome.timeoutError) →
      oracle (a + k) = ReqOutcome.otherError msg →
      (call_llm_loop oracle max_retries n a).result =
          LlmOutcome.error ("LLM API error: " ++ msg) ∧
      (call_llm_loop oracle max_retries n a).attempts = k + 1 ∧
      (call_llm_loop oracle max_retries n a).delays.length = k := by
  intro k
  induction k with
  | zero =>
    intro n a hkn _ _ hother
    cases n with
    | zero => omega
    | succ m =>
      simp only [Nat.add_zero] at hother
      simp [call_llm_loop_step_other oracle max_retries m a msg hother]
  | succ j ih =>
    intro n a hkn hbound hpre hother
    cases n with
    | zero => omega
    | succ m =>
      have hcond : (a : Int) < max_retries - 1 := by push_cast at hbound ⊢; omega
      have hrec := ih m (a + 1) (by omega) (by push_cast at hbound ⊢; omega)
        (by
          intro i hi
          have := hpre (i + 1) (by omega)
          simpa [Nat.add_comm, Nat.add_left_comm, Nat.add_assoc] using this)
        (by
          have : a + 1 + j = a + (j + 1) := by omega
          rw [this]
          exact hother)
      have h0 := hpre 0 (by omega)
      simp only [Nat.add_zero] at h0
      rcases h0 with h0 | h0
      · rw [call_llm_loop_step_conn oracle max_retries m a h0 hcond]
        simp [hrec.1, hrec.2.1, hrec.2.2]
      · rw [call_llm_loop_step_timeout oracle max_retries m a h0 hcond]
        simp [hrec.1, hrec.2.1, hrec.2.2]

/-- Claim C7: a failure other than connection-refused or timeout on some
attempt (all earlier attempts having been transient failures) makes
`call_llm` fail immediately on that attempt with the generic
"LLM API error" message wrapping the cause: the attempt count stops at
that attempt and no delay is added for it. -/
theorem call_llm_other_error_no_retry (prompt model : String)
    (oracle : Nat → ReqOutcome) (max_retries : Int) (k : Nat) (msg : String)
    (hk : (k : Int) < max_retries)
    (hpre : ∀ i, i < k → oracle i = ReqOutcome.connectionError ∨
       oracle i = ReqOutcome.timeoutError)
    (hother : oracle k = ReqOutcome.otherError msg) :
    (call_llm prompt model oracle max_retries).result =
        LlmOutcome.error ("LLM API error: " ++ msg) ∧
    (call_llm prompt model oracle max_retries).attempts = k + 1 ∧
    (call_llm prompt model oracle max_retries).delays.length = k := by
  unfold call_llm
  exact call_llm_loop_other oracle max_retries msg k max_retries.toNat 0
    (by omega) (by simpa using hk)
    (by intro i hi; simpa using hpre i hi)
    (by simpa using hother)

/-- Witness for C7: a non-2xx style failure on the very first attempt
stops `call_llm` after exactly one attempt with the API-error message. -/
theorem call_llm_other_error_no_retry_witness :
    ((call_llm "p" "m" (fun _ => ReqOutcome.otherError "boom") 3).result =
        LlmOutcome.error ("LLM API error: " ++ "boom") ∧
     (call_llm "p" "m" (fun _ => ReqOutcome.otherError "boom") 3).attempts = 0 + 1 ∧
     (call_llm "p" "m" (fun _ => ReqOutcome.otherError "boom") 3).delays.length = 0) :=
  call_llm_other_error_no_retry "p" "m" (fun _ => ReqOutcome.otherError "boom") 3 0 "boom"
    (by decide) (by omega) rfl

/-- Claim C9: with `max_retries ≤ 0` the `range(max_retries)` loop body
never runs, so `call_llm` returns Python `None` with zero requests sent
and zero delays, raising nothing. -/
theorem call_llm_nonpos_retries (prompt model : String)
    (oracle : Nat → ReqOutcome) (max_retries : Int)
    (h : max_retries ≤ 0) :
    call_llm prompt model oracle max_retries = ⟨LlmOutcome.none, 0, []⟩ := by
  unfold call_llm
  have : max_retries.toNat = 0 := by omega
  rw [this]
  rfl

/-- Witness for C9: `max_retries = 0` yields the `None` trace. -/
theorem call_llm_nonpos_retries_witness :
    call_llm "p" "m" (fun _ => ReqOutcome.success "hi") 0 =
      ⟨LlmOutcome.none, 0, []⟩ :=
  call_llm_nonpos_retries "p" "m" (fun _ => ReqOutcome.success "hi") 0 (by decide)

/-! ## Build Adapter (`src/build_utils.py`)

Each external tool invocation is abstracted by the `ProcResult` it would
produce (exit code plus decoded standard output and error).
`subprocessRun` models `subprocess.run(..., capture_output=True)`:
with `check = true` a non-zero exit raises `CalledProcessError`,
otherwise the result is returned regardless of the exit code. -/

/-- Result of an external process: exit code, decoded stdout and stderr. -/
structure ProcResult where
  returncode : Int
  stdout : String
  stderr : String
deriving DecidableEq

/-- The `subprocess.CalledProcessError` data `build_project` consumes. -/
structure CalledProcessError where
  returncode : Int
  stderr : String
deriving DecidableEq

/-- Model of `subprocess.run(cmd, check, capture_output=True)`:
raises `CalledProcessError` exactly when `check` is set and the exit code
is non-zero. -/
def subprocessRun (check : Bool) (r : ProcResult) :
    Except CalledProcessError ProcResult :=
  if check && !(r.returncode == 0) then
    Except.error ⟨r.returncode, r.stderr⟩
  else
    Except.ok r

/-- Outcomes of the two tool invocations inside `build_project`. -/
structure BuildWorld where
  configure : ProcResult
  build : ProcResult
deriving DecidableEq

/-- Side-effecting steps of `build_project`, in program order. -/
inductive BEvent where
  | mkdirBuildDir
  | runConfigure
  | runBuild
deriving DecidableEq

/-- The `build_project(project_dir, build_dir)` function with its event
trace: `os.makedirs(build_dir, exist_ok=True)`, then the cmake configure
step and the cmake build step, each via `subprocess.run(..., check=True,
capture_output=True)`; a `CalledProcessError` from either yields
`(False, e.stderr.decode())`, success yields `(True, result.stdout.decode())`
where `result` is the build step's outcome. -/
def build_projectT (w : BuildWorld) : List BEvent × Bool × String :=
  match subprocessRun true w.configure with
  | Except.error e => ([BEvent.mkdirBuildDir, BEvent.runConfigure], false, e.stderr)
  | Except.ok _ =>
    match subprocessRun true w.build with
    | Except.error e =>
      ([BEvent.mkdirBuildDir, BEvent.runConfigure, BEvent.runBuild], false, e.stderr)
    | Except.ok result =>
      ([BEvent.mkdirBuildDir, BEvent.runConfigure, BEvent.runBuild], true, result.stdout)

/-- Return value of `build_project`, the pair the callers see. -/
def build_project (w : BuildWorld) : Bool × String :=
  (build_projectT w).2

/-- The `run_tests(build_dir)` function: success is the runner's exit
status being zero, and the returned log is stdout concatenated with
stderr in that order. -/
def run_tests (r : ProcResult) : Bool × String :=
  (r.returncode == 0, r.stdout ++ r.stderr)

/-- The `run_coverage(build_dir)` function: the lcov capture step and the
genhtml report step both run through `subprocess.run` without `check`, so
neither exit code can raise; the expected report path is returned
unconditionally. -/
def run_coverage (lcov genhtml : ProcResult) (build_dir : String) :
    Except CalledProcessError String :=
  match subprocessRun false lcov with
  | Except.error e => Except.error e
  | Except.ok _ =>
    match subprocessRun false genhtml with
    | Except.error e => Except.error e
    | Except.ok _ => Except.ok (build_dir ++ "/coverage/index.html")

/-- Whether the build directory exists after the events in `evs`, given
whether it existed before: `os.makedirs(..., exist_ok=True)` creates it. -/
def dirExistsAfter (initialExists : Bool) (evs : List BEvent) : Bool :=
  initialExists || evs.contains BEvent.mkdirBuildDir

/-- Claim C5 counterexample: when both steps succeed, `build_project`
returns only the build step's stdout; the configure step's output is not
combined into it (here it does not even occur as a substring). -/
theorem build_project_success_output_not_combined :
    build_project ⟨⟨0, "CONF", ""⟩, ⟨0, "BUILD", ""⟩⟩ = (true, "BUILD") ∧
    strHasSub "CONF" "BUILD" = false := by
  constructor
  · rfl
  · decide

/-- Claim C5 (amended): on success of both steps `build_project` returns
`(True, build step stdout)` — the configure step's output is discarded —
and on failure of either step it returns `(False, stderr of the first
failing step)`. -/
theorem build_project_output_spec (w : BuildWorld) :
    (w.configure.returncode = 0 → w.build.returncode = 0 →
       build_project w = (true, w.build.stdout)) ∧
    (w.configure.returncode ≠ 0 →
       build_project w = (false, w.configure.stderr)) ∧
    (w.configure.returncode = 0 → w.build.returncode ≠ 0 →
       build_project w = (false, w.build.stderr)) := by
  refine ⟨?_, ?_, ?_⟩
  · intro h1 h2
    simp [build_project, build_projectT, subprocessRun, h1, h2]
  · intro h1
    simp [build_project, build_projectT, subprocessRun, h1]
  · intro h1 h2
    simp [build_project, build_projectT, subprocessRun, h1, h2]

/-- Witness for the amended C5: a failing configure step surfaces that
step's stderr. -/
theorem build_project_output_spec_witness :
    build_project ⟨⟨1, "A", "CONFIGURE-ERR"⟩, ⟨0, "B", "C"⟩⟩ =
      (false, "CONFIGURE-ERR") :=
  (build_project_output_spec ⟨⟨1, "A", "CONFIGURE-ERR"⟩, ⟨0, "B", "C"⟩⟩).2.1
    (by decide)

/-- Claim C8: `run_coverage` returns the `build_dir/coverage/index.html`
path for every pair of tool outcomes, and never surfaces an error for a
non-zero exit of either coverage tool. -/
theorem run_coverage_always_returns_report_path
    (lcov genhtml : ProcResult) (build_dir : String) :
    run_coverage lcov genhtml build_dir =
      Except.ok (build_dir ++ "/coverage/index.html") := rfl

/-- Claim C10: every `build_project` call begins by creating the build
directory (the first event is the `os.makedirs`), so the directory exists
afterwards regardless of whether the configure or build step failed. -/
theorem build_project_creates_build_dir (w : BuildWorld) (initialExists : Bool) :
    dirExistsAfter initialExists (build_projectT w).1 = true ∧
    (build_projectT w).1.head? = some BEvent.mkdirBuildDir := by
  unfold build_projectT
  cases subprocessRun true w.configure with
  | error e => exact ⟨by simp [dirExistsAfter], rfl⟩
  | ok _ =>
    cases subprocessRun true w.build with
    | error e => exact ⟨by simp [dirExistsAfter], rfl⟩
    | ok result => exact ⟨by simp [dirExistsAfter], rfl⟩

/-! ## Pipeline Driver, stages 3 and 4 (`src/main.py`, `main`)

After the two generation stages, `main` calls `build_project`; on failure
it reads `fix_build.yaml` and calls the model once on the template plus
the captured build log, and never reaches `run_tests`.  On success it
calls `run_tests`; `run_coverage` runs only if the tests passed.  The
observable calls are recorded as a list of `PEvent`s in program order. -/

/-- Driver-level observable calls in stages 3 and 4. -/
inductive PEvent where
  | callLLM (prompt : String)
  | runTests
  | runCoverage
deriving DecidableEq

/-- Matcher for model-client invocations among driver events. -/
def isLlmCall : PEvent → Bool
  | PEvent.callLLM _ => true
  | PEvent.runTests => false
  | PEvent.runCoverage => false

/-- Stages 3 and 4 of `main`: the branch on `build_success`, the
build-fix prompt `f"{yaml_prompt}\n\nBuild Log:\n{build_log}"`, the
`run_tests` call, and the conditional `run_coverage` call. -/
def main_stages_3_4 (w : BuildWorld) (test : ProcResult)
    (fix_build_yaml : String) : List PEvent :=
  let bres := build_project w
  if bres.1 then
    let tres := run_tests test
    if tres.1 then [PEvent.runTests, PEvent.runCoverage]
    else [PEvent.runTests]
  else [PEvent.callLLM (fix_build_yaml ++ "\n\nBuild Log:\n" ++ bres.2)]

/-- Claim C6: if the build fails, stages 3-4 call the model exactly once,
with a prompt containing the captured build log, and never invoke the
test runner; if the build succeeds but the test runner exits non-zero,
coverage is never invoked. -/
theorem main_stages_3_4_event_spec (w : BuildWorld) (test : ProcResult)
    (fix_build_yaml : String) :
    ((build_project w).1 = false →
       (main_stages_3_4 w test fix_build_yaml).countP isLlmCall = 1 ∧
       PEvent.runTests ∉ main_stages_3_4 w test fix_build_yaml ∧
       ∀ p, PEvent.callLLM p ∈ main_stages_3_4 w test fix_build_yaml →
         strHasSub (build_project w).2 p = true) ∧
    ((build_project w).1 = true → test.returncode ≠ 0 →
       PEvent.runCoverage ∉ main_stages_3_4 w test fix_build_yaml) := by
  constructor
  · intro hfail
    refine ⟨?_, ?_, ?_⟩
    · simp [main_stages_3_4, hfail, isLlmCall]
    · simp [main_stages_3_4, hfail]
    · intro p hp
      simp [main_stages_3_4, hfail] at hp
      subst hp
      have h := strHasSub_append_right (build_project w).2
        (fix_build_yaml ++ "\n\nBuild Log:\n")
      simpa [String.append_assoc] using h
  · intro hok hrc
    have htest : (test.returncode == 0) = false := by
      simpa using hrc
    simp [main_stages_3_4, hok, run_tests, htest]

/-- Witness for C6: with a failing configure step and a failing test
runner, the test runner is never invoked by stages 3-4. -/
theorem main_stages_3_4_event_spec_witness :
    PEvent.runTests ∉ main_stages_3_4 ⟨⟨1, "", "E"⟩, ⟨0, "", ""⟩⟩ ⟨1, "", ""⟩ "T" :=
  ((main_stages_3_4_event_spec ⟨⟨1, "", "E"⟩, ⟨0, "", ""⟩⟩ ⟨1, "", ""⟩ "T").1
    (by decide)).2.1

/-! ## Discovery (`src/main.py`, `collect_cpp_files`)

The directory tree under the project directory is a forest of `Entry`s.
`collect_cpp_files` mirrors the `os.walk(project_dir)` loop: for each
visited root (in top-down order: a directory's own files first, then each
subdirectory), if the root string contains `"third_party"` the files of
that root are skipped (`continue` does not prune subdirectories), else
every file name ending in `".cc"` or `".cpp"` is appended as
`os.path.join(root, file)`. -/

/-- A node of the scanned directory tree. -/
inductive Entry where
  | file (name : String)
  | dir (name : String) (children : List Entry)

/-- Files appended for one visited root, assuming its `third_party` check
passed: names ending in `".cc"` or `".cpp"`, joined onto the root. -/
def hereFiles (root : List String) : List Entry → List (List String)
  | [] => []
  | Entry.file n :: rest =>
    if strEndsWith n ".cc" || strEndsWith n ".cpp" then
      (root ++ [n]) :: hereFiles root rest
    else hereFiles root rest
  | Entry.dir _ _ :: rest => hereFiles root rest

/-- Remaining `os.walk` visits after a root's own triple: each
subdirectory's triple (files, guarded by the `third_party` substring test
on its root string) followed by its own subtree, in order. -/
def walkDirs (root : List String) : List Entry → List (List String)
  | [] => []
  | Entry.file _ :: rest => walkDirs root rest
  | Entry.dir d cs :: rest =>
    ((if strHasSub "third_party" (joinPath (root ++ [d])) then []
      else hereFiles (root ++ [d]) cs)
     ++ walkDirs (root ++ [d]) cs)
    ++ walkDirs root rest

/-- The `collect_cpp_files(project_dir)` function of `src/main.py`, with
the project directory given as path components `root` and its contents as
the forest `es`. -/
def collect_cpp_files (root : List String) (es : List Entry) : List (List String) :=
  (if strHasSub "third_party" (joinPath root) then [] else hereFiles root es)
  ++ walkDirs root es

/-- Multiplicity of a file named `n` at the relative directory path
`dirs` inside the forest: how many times that exact file exists. -/
def countFileAt : List String → String → List Entry → Nat
  | _, _, [] => 0
  | [], n, Entry.file m :: rest => (if m = n then 1 else 0) + countFileAt [] n rest
  | [], n, Entry.dir _ _ :: rest => countFileAt [] n rest
  | d :: ds, n, Entry.file _ :: rest => countFileAt (d :: ds) n rest
  | d :: ds, n, Entry.dir m cs :: rest =>
    (if m = d then countFileAt ds n cs else 0) + countFileAt (d :: ds) n rest

/-- Python's `os.path.basename` on a component path. -/
def basename (p : List String) : String := p.getLast?.getD ""

/-- The generated test file path of stage 1:
`os.path.join(test_dir, f"test_{os.path.basename(cpp_file)}")`. -/
def testFileName (test_dir : String) (p : List String) : String :=
  test_dir ++ "/" ++ ("test_" ++ basename p)

theorem mem_joinPath_hasSub :
    ∀ {comps : List String} {c : String}, c ∈ comps →
      strHasSub c (joinPath comps) = true := by
  intro comps
  induction comps with
  | nil => intro c h; cases h
  | cons a rest ih =>
    intro c h
    rcases List.mem_cons.mp h with h | h
    · subst h
      cases rest with
      | nil => simpa [strHasSub, joinPath] using hasSubL_self c.data
      | cons r rs =>
        simp only [joinPath]
        unfold strHasSub
        rw [String.data_append, String.data_append, List.append_assoc]
        exact hasSubL_of_startsWithL (startsWithL_append c.data _)
    · have hne : rest ≠ [] := by intro h0; subst h0; cases h
      obtain ⟨r, rs, rfl⟩ := List.exists_cons_of_ne_nil hne
      simp only [joinPath]
      unfold strHasSub
      rw [String.data_append]
      have hrec := ih h
      unfold strHasSub at hrec
      exact hasSubL_prepend hrec (a ++ "/").data

theorem mem_hereFiles :
    ∀ {es : List Entry} {root p : List String}, p ∈ hereFiles root es →
      ∃ n, p = root ++ [n] ∧ (strEndsWith n ".cc" || strEndsWith n ".cpp") = true := by
  intro es
  induction es with
  | nil => intro root p h; simp [hereFiles] at h
  | cons e rest ih =>
    intro root p h
    cases e with
    | file m =>
      simp only [hereFiles] at h
      by_cases hm : (strEndsWith m ".cc" || strEndsWith m ".cpp") = true
      · rw [if_pos hm] at h
        rcases List.mem_cons.mp h with h | h
        · exact ⟨m, h, hm⟩
        · exact ih h
      · rw [if_neg hm] at h
        exact ih h
    | dir d cs =>
      simp only [hereFiles] at h
      exact ih h

theorem mem_walkDirs :
    ∀ (root : List String) (es : List Entry) (p : List String), p ∈ walkDirs root es →
      ∃ dirs n, dirs ≠ [] ∧ p = root ++ dirs ++ [n] ∧
        strHasSub "third_party" (joinPath (root ++ dirs)) = false ∧
        (strEndsWith n ".cc" || strEndsWith n ".cpp") = true := by
  intro root es
  induction root, es using walkDirs.induct with
  | case1 root => intro p h; simp [walkDirs] at h
  | case2 root m rest ih =>
    intro p h
    simp only [walkDirs] at h
    exact ih p h
  | case3 root d cs rest ih1 ih2 =>
    intro p h
    simp only [walkDirs] at h
    rcases List.mem_append.mp h with h | h
    · rcases List.mem_append.mp h with h | h
      · by_cases hchk : strHasSub "third_party" (joinPath (root ++ [d])) = true
        · rw [if_pos hchk] at h
          cases h
        · rw [if_neg hchk] at h
          obtain ⟨n, hp, hsuf⟩ := mem_hereFiles h
          refine ⟨[d], n, by simp, ?_, ?_, hsuf⟩
          · simpa using hp
          · simpa using hchk
      · obtain ⟨dirs1, n, hne, hp, hchk, hsuf⟩ := ih1 p h
        refine ⟨d :: dirs1, n, by simp, ?_, ?_, hsuf⟩
        · rw [hp]
          simp
        · have harr : root ++ (d :: dirs1) = (root ++ [d]) ++ dirs1 := by simp
          rw [harr]
          exact hchk
    · exact ih2 p h

theorem mem_collect_cpp_files :
    ∀ {root : List String} {es : List Entry} {p : List String},
      p ∈ collect_cpp_files root es →
      ∃ dirs n, p = root ++ dirs ++ [n] ∧
        strHasSub "third_party" (joinPath (root ++ dirs)) = false ∧
        (strEndsWith n ".cc" || strEndsWith n ".cpp") = true := by
  intro root es p h
  rcases List.mem_append.mp h with h | h
  · by_cases hchk : strHasSub "third_party" (joinPath root) = true
    · rw [if_pos hchk] at h
      cases h
    · rw [if_neg hchk] at h
      obtain ⟨n, hp, hsuf⟩ := mem_hereFiles h
      refine ⟨[], n, by simpa using hp, by simpa using hchk, hsuf⟩
  · obtain ⟨dirs, n, _, hp, hchk, hsuf⟩ := mem_walkDirs root es p h
    exact ⟨dirs, n, hp, hchk, hsuf⟩

/-- Claim C2: a file whose path contains the `third_party` segment (as a
path component) is never included by discovery, at any nesting depth. -/
theorem collect_cpp_files_excludes_third_party
    (root : List String) (es : List Entry) (p : List String)
    (hseg : "third_party" ∈ p) : p ∉ collect_cpp_files root es := by
  intro hmem
  obtain ⟨dirs, n, hp, hchk, hsuf⟩ := mem_collect_cpp_files hmem
  subst hp
  rcases List.mem_append.mp hseg with h | h
  · have := mem_joinPath_hasSub h
    rw [this] at hchk
    cases hchk
  · have hn : n = "third_party" := by
      cases h with
      | head => rfl
      | tail _ h0 => cases h0
    subst hn
    revert hsuf
    decide

/-- Witness for C2: the file `proj/third_party/x.cpp` is not discovered
in a tree where it exists. -/
theorem collect_cpp_files_excludes_third_party_witness :
    ["proj", "third_party", "x.cpp"] ∉
      collect_cpp_files ["proj"] [Entry.dir "third_party" [Entry.file "x.cpp"]] :=
  collect_cpp_files_excludes_third_party ["proj"]
    [Entry.dir "third_party" [Entry.file "x.cpp"]]
    ["proj", "third_party", "x.cpp"] (by decide)

theorem append_single_assoc (root : List String) (e : String) (q : List String) :
    (root ++ [e]) ++ q = root ++ (e :: q) := by simp

theorem count_hereFiles_self :
    ∀ (es : List Entry) (root : List String) (n : String),
      (strEndsWith n ".cc" || strEndsWith n ".cpp") = true →
      List.count (root ++ [n]) (hereFiles root es) = countFileAt [] n es := by
  intro es
  induction es with
  | nil => intro root n _; simp [hereFiles, countFileAt]
  | cons e rest ih =>
    intro root n hsuf
    cases e with
    | file m =>
      simp only [hereFiles]
      by_cases hm : (strEndsWith m ".cc" || strEndsWith m ".cpp") = true
      · rw [if_pos hm, List.count_cons, ih root n hsuf]
        by_cases hmn : m = n
        · subst hmn
          simp [countFileAt]
          omega
        · have hbeq : ((root ++ [m]) == (root ++ [n])) = false := by
            apply beq_eq_false_iff_ne.mpr
            intro hc
            exact hmn (by simpa using List.append_cancel_left hc)
          simp [countFileAt, hbeq, hmn]
      · have hmn : m ≠ n := by
          intro hc
          subst hc
          exact hm hsuf
        rw [if_neg hm, ih root n hsuf]
        simp [countFileAt, hmn]
    | dir d cs =>
      simp only [hereFiles]
      rw [ih root n hsuf]
      simp [countFileAt]

theorem count_walkDirs_short (root : List String) (es : List Entry) (n : String) :
    List.count (root ++ [n]) (walkDirs root es) = 0 := by
  rw [List.count_eq_zero]
  intro hmem
  obtain ⟨dirs, m, hne, hp, _, _⟩ := mem_walkDirs root es _ hmem
  have h2 : root ++ [n] = root ++ (dirs ++ [m]) := by
    rw [hp, List.append_assoc]
  have h3 := List.append_cancel_left h2
  cases dirs with
  | nil => exact hne rfl
  | cons a as =>
    rw [List.cons_append] at h3
    simp at h3

theorem count_hereFiles_deep_zero (root : List String) (es : List Entry)
    (d : String) (q : List String) (n : String) :
    List.count (root ++ (d :: q) ++ [n]) (hereFiles root es) = 0 := by
  rw [List.count_eq_zero]
  intro hmem
  obtain ⟨m, hp, _⟩ := mem_hereFiles hmem
  have h2 : root ++ (d :: (q ++ [n])) = root ++ [m] := by
    rw [← hp, List.append_assoc]
    simp
  have h3 := List.append_cancel_left h2
  simp at h3

theorem count_hereFiles_cross_zero (root : List String) (cs : List Entry)
    (e d : String) (q : List String) (n : String) (hed : e ≠ d) :
    List.count (root ++ (d :: q) ++ [n]) (hereFiles (root ++ [e]) cs) = 0 := by
  rw [List.count_eq_zero]
  intro hmem
  obtain ⟨m, hp, _⟩ := mem_hereFiles hmem
  have h2 : root ++ (d :: (q ++ [n])) = root ++ (e :: [m]) := by
    have h0 : (root ++ (d :: q)) ++ [n] = (root ++ [e]) ++ [m] := hp
    simpa [List.append_assoc] using h0
  injection List.append_cancel_left h2 with h4 h5
  exact hed h4.symm

theorem count_walkDirs_cross_zero (root : List String) (cs : List Entry)
    (e d : String) (q : List String) (n : String) (hed : e ≠ d) :
    List.count (root ++ (d :: q) ++ [n]) (walkDirs (root ++ [e]) cs) = 0 := by
  rw [List.count_eq_zero]
  intro hmem
  obtain ⟨dirs1, m, _, hp, _, _⟩ := mem_walkDirs (root ++ [e]) cs _ hmem
  have h2 : root ++ (d :: (q ++ [n])) = root ++ (e :: (dirs1 ++ [m])) := by
    have h0 : (root ++ (d :: q)) ++ [n] = ((root ++ [e]) ++ dirs1) ++ [m] := hp
    simpa [List.append_assoc] using h0
  injection List.append_cancel_left h2 with h4 h5
  exact hed h4.symm

theorem count_walkDirs_deep :
    ∀ (root : List String) (es : List Entry),
      ∀ (d : String) (ds : List String) (n : String),
        (strEndsWith n ".cc" || strEndsWith n ".cpp") = true →
        strHasSub "third_party" (joinPath (root ++ (d :: ds))) = false →
        List.count (root ++ (d :: ds) ++ [n]) (walkDirs root es) =
          countFileAt (d :: ds) n es := by
  intro root es
  induction root, es using walkDirs.induct with
  | case1 root =>
    intro d ds n _ _
    simp [walkDirs, countFileAt]
  | case2 root m rest ih =>
    intro d ds n hsuf hfree
    simp only [walkDirs]
    rw [ih d ds n hsuf hfree]
    simp [countFileAt]
  | case3 root e cs rest ih1 ih2 =>
    intro d ds n hsuf hfree
    simp only [walkDirs]
    rw [List.count_append, List.count_append]
    by_cases hed : e = d
    · subst hed
      cases ds with
      | nil =>
        rw [if_neg (by simp [hfree]), count_hereFiles_self cs (root ++ [e]) n hsuf,
          count_walkDirs_short (root ++ [e]) cs n, ih2 e [] n hsuf hfree]
        simp [countFileAt]
      | cons d2 ds2 =>
        have hshape : root ++ (e :: d2 :: ds2) ++ [n] =
            (root ++ [e]) ++ (d2 :: ds2) ++ [n] := by simp
        have hfree2 : strHasSub "third_party"
            (joinPath ((root ++ [e]) ++ (d2 :: ds2))) = false := by
          have hl : (root ++ [e]) ++ (d2 :: ds2) = root ++ (e :: d2 :: ds2) := by simp
          rw [hl]
          exact hfree
        have hc2 : List.count (root ++ (e :: d2 :: ds2) ++ [n])
            (walkDirs (root ++ [e]) cs) = countFileAt (d2 :: ds2) n cs := by
          rw [hshape]
          exact ih1 d2 ds2 n hsuf hfree2
        have hc1 : List.count (root ++ (e :: d2 :: ds2) ++ [n])
            (if strHasSub "third_party" (joinPath (root ++ [e])) = true then []
             else hereFiles (root ++ [e]) cs) = 0 := by
          by_cases hchk : strHasSub "third_party" (joinPath (root ++ [e])) = true
          · rw [if_pos hchk]
            exact List.count_nil _
          · rw [if_neg hchk, hshape]
            exact count_hereFiles_deep_zero (root ++ [e]) cs d2 ds2 n
        rw [hc1, hc2, ih2 e (d2 :: ds2) n hsuf hfree]
        simp [countFileAt]
    · have hc1 : List.count (root ++ (d :: ds) ++ [n])
          (if strHasSub "third_party" (joinPath (root ++ [e])) = true then []
           else hereFiles (root ++ [e]) cs) = 0 := by
        by_cases hchk : strHasSub "third_party" (joinPath (root ++ [e])) = true
        · rw [if_pos hchk]
          exact List.count_nil _
        · rw [if_neg hchk]
          exact count_hereFiles_cross_zero root cs e d ds n hed
      rw [hc1, count_walkDirs_cross_zero root cs e d ds n hed,
        ih2 d ds n hsuf hfree]
      simp [countFileAt, hed]

theorem count_collect_cpp_files (root dirs : List String) (n : String)
    (es : List Entry)
    (hsuf : (strEndsWith n ".cc" || strEndsWith n ".cpp") = true)
    (hfree : strHasSub "third_party" (joinPath (root ++ dirs)) = false) :
    List.count (root ++ dirs ++ [n]) (collect_cpp_files root es) =
      countFileAt dirs n es := by
  unfold collect_cpp_files
  rw [List.count_append]
  cases dirs with
  | nil =>
    have hfree0 : strHasSub "third_party" (joinPath root) = false := by
      simpa using hfree
    rw [if_neg (by simp [hfree0])]
    have h1 : root ++ ([] : List String) ++ [n] = root ++ [n] := by simp
    rw [h1, count_hereFiles_self es root n hsuf, count_walkDirs_short root es n]
    omega
  | cons d ds =>
    have hc1 : List.count (root ++ (d :: ds) ++ [n])
        (if strHasSub "third_party" (joinPath root) = true then []
         else hereFiles root es) = 0 := by
      by_cases hchk : strHasSub "third_party" (joinPath root) = true
      · rw [if_pos hchk]
        exact List.count_nil _
      · rw [if_neg hchk]
        exact count_hereFiles_deep_zero root es d ds n
    rw [hc1, count_walkDirs_deep root es d ds n hsuf hfree]
    omega

/-- Claim C3 counterexample: a file with a recognized suffix whose path
has no `third_party` component is still dropped when a directory name
merely contains `third_party` as a substring — the code tests
`"third_party" in root` on the joined root string, not path segments.
The file `proj/my_third_party/a.cpp` exists once in the tree, ends in
`.cpp`, has no `third_party` segment, yet discovery returns no entry. -/
theorem collect_cpp_files_misses_segment_free_file :
    countFileAt ["my_third_party"] "a.cpp"
        [Entry.dir "my_third_party" [Entry.file "a.cpp"]] = 1 ∧
    strEndsWith "a.cpp" ".cpp" = true ∧
    "third_party" ∉ ["proj", "my_third_party", "a.cpp"] ∧
    List.count ["proj", "my_third_party", "a.cpp"]
      (collect_cpp_files ["proj"]
        [Entry.dir "my_third_party" [Entry.file "a.cpp"]]) = 0 := by
  refine ⟨by simp [countFileAt], by decide, by decide, ?_⟩
  have h : collect_cpp_files ["proj"]
      [Entry.dir "my_third_party" [Entry.file "a.cpp"]] = [] := by
    simp [collect_cpp_files, walkDirs, hereFiles]
    decide
  rw [h]
  rfl

/-- Claim C3 (amended): a file with a recognized suffix is discovered
exactly once provided the `"/"`-joined path of its containing directory
does not contain the substring `third_party` (rather than: provided no
path segment equals `third_party`). -/
theorem collect_cpp_files_includes_exactly_once
    (root dirs : List String) (n : String) (es : List Entry)
    (hsuf : (strEndsWith n ".cc" || strEndsWith n ".cpp") = true)
    (hfree : strHasSub "third_party" (joinPath (root ++ dirs)) = false)
    (hone : countFileAt dirs n es = 1) :
    List.count (root ++ dirs ++ [n]) (collect_cpp_files root es) = 1 := by
  rw [count_collect_cpp_files root dirs n es hsuf hfree, hone]

/-- Witness for the amended C3: `proj/sub/a.cpp` is discovered exactly
once. -/
theorem collect_cpp_files_includes_exactly_once_witness :
    List.count (["proj"] ++ ["sub"] ++ ["a.cpp"])
      (collect_cpp_files ["proj"] [Entry.dir "sub" [Entry.file "a.cpp"]]) = 1 :=
  collect_cpp_files_includes_exactly_once ["proj"] ["sub"] "a.cpp"
    [Entry.dir "sub" [Entry.file "a.cpp"]]
    (by decide) (by decide) (by simp [countFileAt])

/-- Claim C4 counterexample: two distinct discovered source files with
the same base name are both written to the same generated test file, so
the source-to-test-file mapping is not 1:1. -/
theorem testFileName_collision :
    ["proj", "d1", "foo.cpp"] ∈ collect_cpp_files ["proj"]
        [Entry.dir "d1" [Entry.file "foo.cpp"], Entry.dir "d2" [Entry.file "foo.cpp"]] ∧
    ["proj", "d2", "foo.cpp"] ∈ collect_cpp_files ["proj"]
        [Entry.dir "d1" [Entry.file "foo.cpp"], Entry.dir "d2" [Entry.file "foo.cpp"]] ∧
    ["proj", "d1", "foo.cpp"] ≠ ["proj", "d2", "foo.cpp"] ∧
    testFileName "generated_tests" ["proj", "d1", "foo.cpp"] =
      testFileName "generated_tests" ["proj", "d2", "foo.cpp"] := by
  have h : collect_cpp_files ["proj"]
      [Entry.dir "d1" [Entry.file "foo.cpp"], Entry.dir "d2" [Entry.file "foo.cpp"]] =
      [["proj", "d1", "foo.cpp"], ["proj", "d2", "foo.cpp"]] := by
    simp [collect_cpp_files, walkDirs, hereFiles]
    decide
  refine ⟨by rw [h]; decide, by rw [h]; decide, by decide, by decide⟩

/-- Claim C4 (amended): the generated-test-file mapping is 1:1 on base
names: two discovered source files with distinct base names are written
to distinct output files (files sharing a base name collide). -/
theorem testFileName_injective_on_basenames
    (root : List String) (es : List Entry) (test_dir : String)
    (p q : List String)
    (_hp : p ∈ collect_cpp_files root es) (_hq : q ∈ collect_cpp_files root es)
    (hbase : basename p ≠ basename q) :
    testFileName test_dir p ≠ testFileName test_dir q := by
  intro hc
  apply hbase
  unfold testFileName at hc
  have hdata := congrArg String.data hc
  simp only [String.data_append, List.append_assoc] at hdata
  have h1 := List.append_cancel_left hdata
  have h2 := List.append_cancel_left h1
  have h3 := List.append_cancel_left h2
  exact String.ext h3

/-- Witness for the amended C4: two discovered files with distinct base
names map to distinct test files. -/
theorem testFileName_injective_on_basenames_witness :
    testFileName "generated_tests" ["proj", "d1", "x.cpp"] ≠
      testFileName "generated_tests" ["proj", "d2", "y.cpp"] := by
  have h : collect_cpp_files ["proj"]
      [Entry.dir "d1" [Entry.file "x.cpp"], Entry.dir "d2" [Entry.file "y.cpp"]] =
      [["proj", "d1", "x.cpp"], ["proj", "d2", "y.cpp"]] := by
    simp [collect_cpp_files, walkDirs, hereFiles]
    decide
  exact testFileName_injective_on_basenames ["proj"]
    [Entry.dir "d1" [Entry.file "x.cpp"], Entry.dir "d2" [Entry.file "y.cpp"]]
    "generated_tests" ["proj", "d1", "x.cpp"] ["proj", "d2", "y.cpp"]
    (by rw [h]; decide) (by rw [h]; decide) (by decide)
